import Mathlib

/-
Shallow embedding of the RISC-V back-end slice of the JDK under verification:
`src/hotspot/cpu/riscv/c2_CodeStubs_riscv.cpp` (C2 compiler code stubs) and
`src/hotspot/os_cpu/linux_riscv/vm_version_linux_riscv.cpp` (CPU feature
detection on Linux).  Machine strings are embedded as `List Char` (the
characters of the C string before its NUL terminator); buffer positions and
byte counts are `Nat`.
-/

namespace RiscvJdk

/-! ### Code stubs (`c2_CodeStubs_riscv.cpp`) -/

/-- Modelled from the spec: the assembler primitives are external collaborators
("the general instruction encoder/assembler primitives" are out of scope).
Every instruction these stubs emit is an uncompressed RISC-V instruction,
4 bytes wide. -/
def instLen : Nat := 4

/-- Modelled from the spec: `MacroAssembler::movptr` (not part of this source
slice) materializes a 48-bit target address as a fixed five-instruction
sequence (lui, addi, slli, addi, slli), independent of the target value; the
low bits are returned in `offset` for the following `jalr`. -/
def movptrLen (target : Nat) : Nat := 5 * instLen

/-- Modelled from the spec: `MacroAssembler::la_patchable` (not part of this
source slice) emits a single `auipc` for any relocation-target distance in the
signed 32-bit range; its length does not depend on the distance. -/
def laPatchableLen (distance : Int) : Nat := instLen

/-- Modelled from the spec: `MacroAssembler::far_jump` (not part of this source
slice) performs "an unconditional far transfer to a fixed, pre-registered
handler": a single `jal` when the target is within the +-1 MiB direct-jump
range, otherwise an `auipc` plus `jalr` pair. -/
def farJumpLen (distance : Int) : Nat :=
  if distance < -(2 ^ 20) ∨ (2 ^ 20) ≤ distance then 2 * instLen else instLen

/-- Modelled from the spec: the assembler's `align(m)` directive pads the
current buffer position up to the next multiple of `m`. -/
def alignUp (pos m : Nat) : Nat := pos + (m - pos % m) % m

/-- Source `C2SafepointPollStub::max_size`: `return 13 * 4;`. -/
def c2SafepointPollStub_max_size : Nat := 13 * 4

/-- Source `C2EntryBarrierStub::max_size`: `return 8 * 4 + 4;`
(the comment in the source reads "4 bytes for alignment"). -/
def c2EntryBarrierStub_max_size : Nat := 8 * 4 + 4

/-- Byte count written by `C2SafepointPollStub::emit`: the relocated
`la_patchable` + `addi` pair materializing the safepoint pc, the `sd` into the
thread-local save slot, and the `far_jump` to the polling-page return handler.
`dPc` is the distance to the safepoint pc, `dHandler` the distance to the
handler blob. -/
def safepointPollEmitSize (dPc dHandler : Int) : Nat :=
  laPatchableLen dPc + instLen + instLen + farJumpLen dHandler

/-- Buffer position of the guard word bound at `guard()` by
`C2EntryBarrierStub::emit` when emission starts at `start`: after the
`movptr` + `jalr` + `j` body the position is aligned to 4
(`__ align(4)` in the source) and the guard word is bound there. -/
def entryBarrierGuardAddr (start target : Nat) : Nat :=
  alignUp (start + movptrLen target + instLen + instLen) 4

/-- One-past-the-end buffer position of `C2EntryBarrierStub::emit`:
the 4-byte guard word is the last thing emitted. -/
def entryBarrierEmitEnd (start target : Nat) : Nat :=
  entryBarrierGuardAddr start target + 4

/-- Byte count written by `C2EntryBarrierStub::emit` starting at `start`. -/
def entryBarrierEmitSize (start target : Nat) : Nat :=
  entryBarrierEmitEnd start target - start

/-- Events performed by `C2EntryBarrierStub::emit`, in source order. -/
inductive EmitEvent where
  | bindEntry : EmitEvent
  | inst : EmitEvent
  | alignPad : Nat → EmitEvent
  | bindGuard : EmitEvent
  | relocEntryGuard : EmitEvent
  | emitInt32 : Int → EmitEvent
deriving DecidableEq, Repr

/-- Event trace of `C2EntryBarrierStub::emit` for a start position `start` and
barrier-routine address `target`: bind `entry()`; the five `movptr`
instructions, the `jalr` and the `j continuation()` (seven instructions); the
`align(4)` padding; bind `guard()`; attach the `entry_guard_Relocation`; emit
the 32-bit word 0 ("nmethod guard value"). -/
def c2EntryBarrierEmitEvents (start target : Nat) : List EmitEvent :=
  [EmitEvent.bindEntry] ++ List.replicate 7 EmitEvent.inst ++
    [EmitEvent.alignPad ((4 - (start + movptrLen target + instLen + instLen) % 4) % 4),
     EmitEvent.bindGuard, EmitEvent.relocEntryGuard, EmitEvent.emitInt32 0]

/-- The event immediately following the first entry-guard relocation. -/
def wordAfterEntryGuardReloc : List EmitEvent → Option EmitEvent
  | [] => none
  | EmitEvent.relocEntryGuard :: rest => rest.head?
  | _ :: rest => wordAfterEntryGuardReloc rest

/-! ### CPU feature detection (`vm_version_linux_riscv.cpp`) -/

/-- Translation modes of `VM_Version::VM_MODE`. -/
inductive VM_MODE where
  | VM_NOTSET : VM_MODE
  | VM_MBARE : VM_MODE
  | VM_SV39 : VM_MODE
  | VM_SV48 : VM_MODE
  | VM_SV57 : VM_MODE
  | VM_SV64 : VM_MODE
deriving DecidableEq, Repr

/-- Source `VM_Version::parse_satp_mode`: full `strcmp` of the argument
against the four mode strings, anything else is `VM_MBARE`. -/
def parse_satp_mode (vm_mode : List Char) : VM_MODE :=
  if vm_mode = "sv39".toList then VM_MODE.VM_SV39
  else if vm_mode = "sv48".toList then VM_MODE.VM_SV48
  else if vm_mode = "sv57".toList then VM_MODE.VM_SV57
  else if vm_mode = "sv64".toList then VM_MODE.VM_SV64
  else VM_MODE.VM_MBARE

/-- Modelled from the spec: one entry of the extension registry declared in
`vm_version_riscv.hpp` (not part of this source slice): "a registry of named
hardware extensions, each with a bit position, display token, enabled flag".
`pretty` is the display name, `featureBit` the Linux HWCAP bit (0 when the
extension has no HWCAP mapping), `featureString` whether the entry
contributes to the canonical features string. -/
structure RVExt where
  pretty : List Char
  featureBit : Nat
  featureString : Bool
deriving DecidableEq, Repr

/-- Placeholder registry entry used only as the default of `List.getD`. -/
def dummyExt : RVExt := ⟨[], 0, false⟩

/-- Modelled from the spec: the fixed, ordered extension registry
(`_feature_list` of `vm_version_riscv.hpp`, not part of this source slice).
The single-letter entries and their HWCAP bits `nth_bit(letter - 'A')` are
fixed by the assertions at the top of `setup_cpu_available_features`; the
multi-letter entries are the ones this source slice names and have no HWCAP
bit.  Value-carrying entries (mvendorid, unaligned access, satp mode) are
modelled as dedicated fields of `FState` below. -/
def featureList : List RVExt :=
  [⟨"i".toList, 1 <<< 8, true⟩,
   ⟨"m".toList, 1 <<< 12, true⟩,
   ⟨"a".toList, 1 <<< 0, true⟩,
   ⟨"f".toList, 1 <<< 5, true⟩,
   ⟨"d".toList, 1 <<< 3, true⟩,
   ⟨"c".toList, 1 <<< 2, true⟩,
   ⟨"q".toList, 1 <<< 16, true⟩,
   ⟨"h".toList, 1 <<< 7, true⟩,
   ⟨"v".toList, 1 <<< 21, true⟩,
   ⟨"Zicbom".toList, 0, true⟩,
   ⟨"Zicboz".toList, 0, true⟩,
   ⟨"Zicbop".toList, 0, true⟩,
   ⟨"Zba".toList, 0, true⟩,
   ⟨"Zbb".toList, 0, true⟩,
   ⟨"Zbc".toList, 0, true⟩,
   ⟨"Zbs".toList, 0, true⟩,
   ⟨"Zicsr".toList, 0, true⟩,
   ⟨"Zifencei".toList, 0, true⟩,
   ⟨"Zic64b".toList, 0, true⟩,
   ⟨"Zihintpause".toList, 0, true⟩]

/-- Modelled from the spec: the "fast-unaligned-access" value
(`MISALIGNED_FAST`) of the unaligned-access tunable; its numeric value is
irrelevant to the claims. -/
def MISALIGNED_FAST : Nat := 0

/-- Modelled from the spec: the mutable registry state during the one-time
detection pass.  `extEnabled` is the enabled flag of each `featureList`
entry, in registry order; the three value-carrying features are `Option`
fields (`none` = the feature was never enabled). -/
structure FState where
  extEnabled : List Bool
  satpMode : Option VM_MODE
  unalignedAccess : Option Nat
  mvendorid : Option Nat
deriving DecidableEq, Repr

/-- Registry state before detection: every extension disabled, no value
features set. -/
def initState : FState :=
  ⟨List.replicate featureList.length false, none, none, none⟩

/-- Modelled from the spec: `RVFeatureValue::enable_feature()` of
`vm_version_riscv.hpp` sets the enabled flag of the named registry entry. -/
def enable_feature (nm : List Char) (s : FState) : FState :=
  { s with
    extEnabled :=
      (featureList.zip s.extEnabled).map
        (fun p => if p.1.pretty = nm then true else p.2) }

/-- Source `VM_Version::os_aux_features`: walk the registry and enable every
extension whose feature bit is set in the `AT_HWCAP` bitmask `auxv`. -/
def os_aux_features (auxv : Nat) (s : FState) : FState :=
  { s with
    extEnabled :=
      (featureList.zip s.extEnabled).map
        (fun p => p.2 || decide ((p.1.featureBit &&& auxv) ≠ 0)) }

/-- Source `VM_Version::rivos_features`: force-enable the fixed vendor bundle
(all nine single-letter extensions and the eleven Z-extensions), then set the
unaligned-access tunable to `MISALIGNED_FAST` and the satp mode to
`VM_SV48`. -/
def rivosExtNames : List (List Char) :=
  ["i".toList, "m".toList, "a".toList, "f".toList, "d".toList, "c".toList,
   "q".toList, "h".toList, "v".toList,
   "Zicbom".toList, "Zicboz".toList, "Zicbop".toList,
   "Zba".toList, "Zbb".toList, "Zbc".toList, "Zbs".toList,
   "Zicsr".toList, "Zifencei".toList, "Zic64b".toList, "Zihintpause".toList]

/-- Source `VM_Version::rivos_features` as a state transformer: the
`enable_feature` calls for the bundle, then
`unaligned_access.enable_feature(MISALIGNED_FAST)` and
`satp_mode.enable_feature(VM_SV48)`. -/
def rivos_features (s : FState) : FState :=
  ⟨(rivosExtNames.foldl (fun t nm => enable_feature nm t) s).extEnabled,
   some VM_MODE.VM_SV48, some MISALIGNED_FAST,
   (rivosExtNames.foldl (fun t nm => enable_feature nm t) s).mvendorid⟩

/-- Source `VM_Version::vendor_features`: skip unless `mvendorid` is enabled;
on the Rivos JEDEC id `0x6cf` (`((bank - 1) << 7) | (0x7f & JEDEC)`) run
`rivos_features`, otherwise do nothing. -/
def vendor_features (s : FState) : FState :=
  match s.mvendorid with
  | none => s
  | some v => if v = 0x6cf then rivos_features s else s

/-- Equivalent of `strncmp(buf, key, strlen(key)) == 0`: `buf` starts with
`key`. -/
def strncmpEq : List Char → List Char → Bool
  | [], _ => true
  | _ :: _, [] => false
  | k :: ks, c :: cs => k = c && strncmpEq ks cs

/-- Equivalent of `strchr(buf, ':')`: the suffix of the line starting at the
first colon, or `none` when the line has no colon. -/
def colonSuffix (l : List Char) : Option (List Char) :=
  match l.dropWhile (fun c => c ≠ ':') with
  | [] => none
  | c :: cs => some (c :: cs)

/-- Equivalent of `strcspn(p, "\n")`: index of the first newline in `p` (or
the length of `p`). -/
def strcspnNl (p : List Char) : Nat := (p.takeWhile (fun c => c ≠ '\n')).length

/-- Source uarch extraction: `ret = os::strdup(p + 2); ret[strcspn(p, "\n")]
= '\0';`.  The C string `ret` holds the characters of `p` after the colon and
the separator character; the NUL is stored at the index computed from `p`
(not from `ret`), so it truncates `ret` only when that index lands inside
`ret`; an index beyond `ret`'s last cell leaves the string unchanged (and in C
writes out of bounds, see `uarchWriteOOB`). -/
def uarchExtract (p : List Char) : List Char :=
  let ret := p.drop 2
  let stop := strcspnNl p
  if stop < ret.length then ret.take stop else ret

/-- Whether the NUL store `ret[strcspn(p, "\n")] = '\0'` writes outside the
`strlen(ret) + 1` bytes allocated by `strdup`. -/
def uarchWriteOOB (p : List Char) : Bool :=
  decide (strcspnNl p > (p.drop 2).length)

def mmuKey : List Char := "mmu".toList

def uarchKey : List Char := "uarch".toList

/-- Per-line update of the satp mode in the `/proc/cpuinfo` scan loop: only
lines containing a colon are examined; the first line whose key starts with
"mmu" (while the mode is still `VM_NOTSET`) has the colon suffix `p` passed
to `parse_satp_mode`. -/
def stepMode (l : List Char) (mode : VM_MODE) : VM_MODE :=
  match colonSuffix l with
  | none => mode
  | some p =>
    if mode = VM_MODE.VM_NOTSET ∧ strncmpEq mmuKey l = true then
      parse_satp_mode p
    else mode

/-- Per-line update of the uarch string in the `/proc/cpuinfo` scan loop: the
first colon line whose key starts with "uarch" (while `ret` is still null)
sets `ret` via `uarchExtract`. -/
def stepRet (l : List Char) (ret : Option (List Char)) : Option (List Char) :=
  match colonSuffix l with
  | none => ret
  | some p =>
    if ret = none ∧ strncmpEq uarchKey l = true then some (uarchExtract p)
    else ret

/-- Result of the `/proc/cpuinfo` scan loop: final mode and uarch string, and
the number of lines consumed by `fgets`. -/
structure ScanRes where
  mode : VM_MODE
  ret : Option (List Char)
  reads : Nat
deriving DecidableEq, Repr

/-- Source scan loop of `VM_Version::os_uarch_additional_features`:
`while (fgets(...) != nullptr && (mode == VM_NOTSET || ret == nullptr))`.
`fgets` is on the left of `&&`, so each iteration first consumes a line and
only then tests the two found-flags; a line consumed after both flags are set
is counted in `reads` but not processed. -/
def scanLoop : List (List Char) → VM_MODE → Option (List Char) → ScanRes
  | [], m, r => ⟨m, r, 0⟩
  | l :: ls, m, r =>
    if m = VM_MODE.VM_NOTSET ∨ r = none then
      let res := scanLoop ls (stepMode l m) (stepRet l r)
      ⟨res.mode, res.ret, res.reads + 1⟩
    else ⟨m, r, 1⟩

/-- Source `VM_Version::os_uarch_additional_features`: `none` for `cpuinfo`
models `fopen` failing, in which case the function returns null **before**
`satp_mode.enable_feature` is reached; otherwise the scan loop runs from
`VM_NOTSET`/null, a still-unset mode defaults to `VM_MBARE`, and the satp
feature is enabled with the final mode.  Returns the uarch C string (or
`none`) and the updated registry state. -/
def os_uarch_additional_features (cpuinfo : Option (List (List Char)))
    (s : FState) : Option (List Char) × FState :=
  match cpuinfo with
  | none => (none, s)
  | some lines =>
    let res := scanLoop lines VM_MODE.VM_NOTSET none
    let mode := if res.mode = VM_MODE.VM_NOTSET then VM_MODE.VM_MBARE
                else res.mode
    (res.ret, { s with satpMode := some mode })

/-- Display token appended for one enabled extension by the string loop of
`setup_cpu_available_features`: a single-letter name verbatim; a multi-letter
name as an underscore, the first character lowercased (`tolower(tmp[0])`),
then the remaining characters verbatim (`&tmp[1]`). -/
def codeToken : List Char → List Char
  | [] => []
  | c :: rest => if rest = [] then [c] else '_' :: c.toLower :: rest

/-- Token concatenation of the string loop of `setup_cpu_available_features`:
walk the registry in order and append `codeToken` for every enabled entry
with `feature_string()` set. -/
def tokensFold : List RVExt → List Bool → List Char
  | [], _ => []
  | _ :: _, [] => []
  | e :: fl, b :: en =>
    (if b && e.featureString then codeToken e.pretty else []) ++
      tokensFold fl en

/-- Aggregate feature mask of `setup_cpu_available_features`: fold the feature
bit of every enabled registry entry into `_features`. -/
def maskFold : List RVExt → List Bool → Nat
  | [], _ => 0
  | _ :: _, [] => 0
  | e :: fl, b :: en =>
    (if b then e.featureBit else 0) ||| maskFold fl en

/-- Canonical features string built by `setup_cpu_available_features`: a
non-null, non-empty uarch string is prefixed with a comma via
`snprintf(buf, sizeof(buf)/2, "%s,", uarch)` (at most 511 characters), then
`"rv64"` and the display tokens are concatenated. -/
def buildFeaturesString (uarch : Option (List Char)) (en : List Bool) :
    List Char :=
  (match uarch with
   | some u => if u = [] then [] else (u ++ [',']).take 511
   | none => []) ++ "rv64".toList ++ tokensFold featureList en

/-- Input to the one-time detection pass.  `hwprobeOk` and `hwprobeResult`
are Modelled from the spec: `RiscvHwprobe::probe_features()` (not part of this
source slice) returns whether the extended hardware-probe interface is
available and, on success, leaves the registry it populated. -/
structure DetectInput where
  hwprobeOk : Bool
  hwprobeResult : FState
  auxv : Nat
  cpuinfo : Option (List (List Char))

/-- Registry state after detection steps 1-2 of
`setup_cpu_available_features`, plus whether the `AT_HWCAP` fallback was
consulted: `if (!RiscvHwprobe::probe_features()) { os_aux_features(); }`. -/
def step12 (inp : DetectInput) : FState × Bool :=
  if inp.hwprobeOk then (inp.hwprobeResult, false)
  else (os_aux_features inp.auxv initState, true)

/-- Outcome of the detection pass. -/
structure DetectResult where
  state : FState
  features : List Char
  mask : Nat
  auxConsulted : Bool
deriving DecidableEq, Repr

/-- Source `VM_Version::setup_cpu_available_features`: hwprobe with `AT_HWCAP`
fallback, the `/proc/cpuinfo` scan, the vendor overlay, then the finalization
loop producing the features string and aggregate mask. -/
def setup_cpu_available_features (inp : DetectInput) : DetectResult :=
  let sc := step12 inp
  let ur := os_uarch_additional_features inp.cpuinfo sc.1
  let s3 := vendor_features ur.2
  ⟨s3, buildFeaturesString ur.1 s3.extEnabled,
   maskFold featureList s3.extEnabled, sc.2⟩

/-- Display token as the spec words it: "the bare letter for a single-letter
extension, and an underscore followed by the lowercase name for a
multi-letter extension". -/
def specToken (s : List Char) : List Char :=
  if s.length = 1 then s else '_' :: s.map Char.toLower

/-- Token concatenation as the spec words it: the base tag is "followed, in
registry (insertion) order, by each enabled extension's display token". -/
def specTokens : List RVExt → List Bool → List Char
  | [], _ => []
  | _ :: _, [] => []
  | e :: fl, b :: en =>
    (if b then specToken e.pretty else []) ++ specTokens fl en

/-- Mode recovered from a line sequence as the spec words it: the parse of the
first colon-carrying line whose key starts with "mmu" (still `VM_NOTSET` when
there is none).  This is by construction independent of where any "uarch"
lines sit. -/
def modeSpec : List (List Char) → VM_MODE
  | [] => VM_MODE.VM_NOTSET
  | l :: ls =>
    match colonSuffix l with
    | some p =>
      if strncmpEq mmuKey l = true then parse_satp_mode p else modeSpec ls
    | none => modeSpec ls

/-- Uarch string recovered from a line sequence: the extraction from the first
colon-carrying line whose key starts with "uarch", independent of where any
"mmu" lines sit. -/
def retSpec : List (List Char) → Option (List Char)
  | [] => none
  | l :: ls =>
    match colonSuffix l with
    | some p =>
      if strncmpEq uarchKey l = true then some (uarchExtract p) else retSpec ls
    | none => retSpec ls

/-- Whether some line of the sequence sets the mode field. -/
def hasMmu (ls : List (List Char)) : Bool :=
  ls.any (fun l => strncmpEq mmuKey l && (colonSuffix l).isSome)

/-- Whether some line of the sequence sets the uarch field. -/
def hasUarch (ls : List (List Char)) : Bool :=
  ls.any (fun l => strncmpEq uarchKey l && (colonSuffix l).isSome)

/-- A `/proc/cpuinfo` "mmu" line reporting sv48 (as `fgets` returns it,
trailing newline included). -/
def mmuLine : List Char := "mmu\t\t: sv48\n".toList

/-- A `/proc/cpuinfo` "uarch" line (trailing newline included). -/
def uarchLineA : List Char := "uarch\t\t: sifive-u74\n".toList

/-- A second "uarch" line, used to show the scan result ignores it. -/
def uarchLineB : List Char := "uarch\t\t: other\n".toList

/-- Detection input with all four sources unavailable: hwprobe fails, the
`AT_HWCAP` bitmask is zero, the pseudo-file cannot be opened, no vendor id. -/
def allSourcesOff : DetectInput := ⟨false, initState, 0, none⟩

/-- A registry state with the first extension enabled and the Rivos vendor id
present, used to witness the vendor-overlay monotonicity. -/
def c6State : FState :=
  ⟨true :: List.replicate 19 false, none, none, some 0x6cf⟩

/-- Detection input where hwprobe fails and the bitmask advertises only the
"i" bit, used to witness the bitmask-source characterization. -/
def c8Input : DetectInput := ⟨false, initState, 1 <<< 8, none⟩

/-- Scanned prefix for the read-count witness: both fields found. -/
def w7pre : List (List Char) := [mmuLine, uarchLineA]

/-- Lines after the point where both fields were found. -/
def w7post : List (List Char) := [uarchLineB]

/-- C1: after `C2EntryBarrierStub::emit` completes, the address at which the
guard word (bound to the `guard()` label) was emitted is a multiple of 4
bytes, for every possible starting alignment of the code buffer position. -/
theorem C1_guard_word_aligned (start target : Nat) :
    entryBarrierGuardAddr start target % 4 = 0 := by
  unfold entryBarrierGuardAddr alignUp movptrLen instLen
  omega

/-- C2: for each stub kind, the number of bytes written by `emit` is at most
`max_size()` — 52 bytes for `C2SafepointPollStub` and 36 bytes for
`C2EntryBarrierStub` — for every relocation-target distance and every
starting buffer alignment. -/
theorem C2_emit_within_max_size (start target : Nat) (dPc dHandler : Int) :
    safepointPollEmitSize dPc dHandler ≤ c2SafepointPollStub_max_size ∧
    entryBarrierEmitSize start target ≤ c2EntryBarrierStub_max_size ∧
    c2SafepointPollStub_max_size = 52 ∧ c2EntryBarrierStub_max_size = 36 := by
  refine ⟨?_, ?_, rfl, rfl⟩
  · unfold safepointPollEmitSize laPatchableLen farJumpLen instLen
      c2SafepointPollStub_max_size
    split <;> omega
  · unfold entryBarrierEmitSize entryBarrierEmitEnd entryBarrierGuardAddr
      alignUp movptrLen instLen c2EntryBarrierStub_max_size
    omega

/-- C10: `C2EntryBarrierStub::emit` always writes the guard word with initial
value 0 (`__ emit_int32(0)`), immediately after attaching the entry-guard
relocation, for every emission. -/
theorem C10_guard_word_initial_zero (start target : Nat) :
    wordAfterEntryGuardReloc (c2EntryBarrierEmitEvents start target) =
      some (EmitEvent.emitInt32 0) := rfl

lemma getD_false_lt {l : List Bool} {k : Nat} (h : l.getD k false = true) :
    k < l.length := by
  induction l generalizing k with
  | nil => simp [List.getD] at h
  | cons b t ih =>
    cases k with
    | zero => simp
    | succ k =>
      simp only [List.getD_cons_succ] at h
      exact Nat.succ_lt_succ (ih h)

lemma zipMap_getD (f : RVExt × Bool → Bool) :
    ∀ (fl : List RVExt) (en : List Bool) (k : Nat),
      k < fl.length → k < en.length →
      ((fl.zip en).map f).getD k false =
        f (fl.getD k dummyExt, en.getD k false) := by
  intro fl
  induction fl with
  | nil => intro en k hk _; simp at hk
  | cons e fl ih =>
    intro en k hk1 hk2
    cases en with
    | nil => simp at hk2
    | cons b en =>
      cases k with
      | zero => rfl
      | succ k =>
        simp only [List.zip_cons_cons, List.map_cons, List.getD_cons_succ]
        exact ih en k (by simpa using hk1) (by simpa using hk2)

lemma getD_replicate_false (n k : Nat) :
    (List.replicate n false).getD k false = false := by
  induction n generalizing k with
  | zero => simp [List.getD]
  | succ n ih =>
    cases k with
    | zero => simp [List.replicate_succ]
    | succ k => simp [List.replicate_succ, List.getD_cons_succ, ih]

lemma enable_feature_length (nm : List Char) (s : FState)
    (h : s.extEnabled.length = featureList.length) :
    (enable_feature nm s).extEnabled.length = featureList.length := by
  simp [enable_feature, h]

lemma enable_feature_mono (nm : List Char) (s : FState) (k : Nat)
    (hlen : s.extEnabled.length = featureList.length)
    (h : s.extEnabled.getD k false = true) :
    (enable_feature nm s).extEnabled.getD k false = true := by
  have hk : k < s.extEnabled.length := getD_false_lt h
  have hz := zipMap_getD (fun p => if p.1.pretty = nm then true else p.2)
    featureList s.extEnabled k (by omega) hk
  simp only [enable_feature]
  rw [hz, h]
  show (if (featureList.getD k dummyExt).pretty = nm then true else true) = true
  split <;> rfl

lemma foldl_enable_mono (k : Nat) :
    ∀ (names : List (List Char)) (s : FState),
      s.extEnabled.length = featureList.length →
      s.extEnabled.getD k false = true →
      ((names.foldl (fun t nm => enable_feature nm t) s).extEnabled.length =
          featureList.length) ∧
      (names.foldl (fun t nm => enable_feature nm t) s).extEnabled.getD k false
        = true := by
  intro names
  induction names with
  | nil => intro s h1 h2; exact ⟨h1, h2⟩
  | cons nm names ih =>
    intro s h1 h2
    exact ih (enable_feature nm s) (enable_feature_length nm s h1)
      (enable_feature_mono nm s k h1 h2)

lemma tokensFold_eq_specTokens :
    ∀ (fl : List RVExt) (en : List Bool),
      (∀ e ∈ fl, e.featureString = true ∧
        codeToken e.pretty = specToken e.pretty) →
      tokensFold fl en = specTokens fl en := by
  intro fl
  induction fl with
  | nil => intro en _; rfl
  | cons e fl ih =>
    intro en h
    cases en with
    | nil => rfl
    | cons b en =>
      have he := h e (by simp)
      have hr : ∀ x ∈ fl, x.featureString = true ∧
          codeToken x.pretty = specToken x.pretty :=
        fun x hx => h x (by simp [hx])
      simp [tokensFold, specTokens, he.1, he.2, ih en hr]

lemma buildFeaturesString_none (en : List Bool) :
    buildFeaturesString none en = "rv64".toList ++ specTokens featureList en := by
  show "rv64".toList ++ tokensFold featureList en = _
  rw [tokensFold_eq_specTokens featureList en (by decide)]

lemma parse_ne_notset (p : List Char) :
    parse_satp_mode p ≠ VM_MODE.VM_NOTSET := by
  intro hpe
  unfold parse_satp_mode at hpe
  repeat' split at hpe
  all_goals exact VM_MODE.noConfusion hpe

lemma stepMode_of_ne {l : List Char} {m : VM_MODE}
    (h : m ≠ VM_MODE.VM_NOTSET) : stepMode l m = m := by
  cases hc : colonSuffix l with
  | none => simp [stepMode, hc]
  | some p => simp [stepMode, hc, h]

lemma stepRet_of_ne {l : List Char} {r : Option (List Char)}
    (h : r ≠ none) : stepRet l r = r := by
  cases hc : colonSuffix l with
  | none => simp [stepRet, hc]
  | some p => simp [stepRet, hc, h]

lemma stepMode_ne_of_match {l : List Char} {m : VM_MODE}
    (h : (strncmpEq mmuKey l && (colonSuffix l).isSome) = true) :
    stepMode l m ≠ VM_MODE.VM_NOTSET := by
  cases hc : colonSuffix l with
  | none => rw [hc] at h; simp at h
  | some p =>
    have hkey : strncmpEq mmuKey l = true := ((Bool.and_eq_true _ _).mp h).1
    by_cases hm : m = VM_MODE.VM_NOTSET
    · have hs : stepMode l m = parse_satp_mode p := by
        simp [stepMode, hc, hm, hkey]
      rw [hs]; exact parse_ne_notset p
    · rw [stepMode_of_ne hm]; exact hm

lemma stepRet_ne_of_match {l : List Char} {r : Option (List Char)}
    (h : (strncmpEq uarchKey l && (colonSuffix l).isSome) = true) :
    stepRet l r ≠ none := by
  cases hc : colonSuffix l with
  | none => rw [hc] at h; simp at h
  | some p =>
    have hkey : strncmpEq uarchKey l = true := ((Bool.and_eq_true _ _).mp h).1
    by_cases hr : r = none
    · have hs : stepRet l r = some (uarchExtract p) := by
        simp [stepRet, hc, hr, hkey]
      rw [hs]; simp
    · rw [stepRet_of_ne hr]; exact hr

lemma scanLoop_mode :
    ∀ (ls : List (List Char)) (m : VM_MODE) (r : Option (List Char)),
      (scanLoop ls m r).mode =
        if m = VM_MODE.VM_NOTSET then modeSpec ls else m := by
  intro ls
  induction ls with
  | nil =>
    intro m r
    by_cases hm : m = VM_MODE.VM_NOTSET
    · simp [scanLoop, modeSpec, hm]
    · rw [if_neg hm]; rfl
  | cons l ls ih =>
    intro m r
    by_cases hcond : m = VM_MODE.VM_NOTSET ∨ r = none
    · simp only [scanLoop]
      rw [if_pos hcond]
      show (scanLoop ls (stepMode l m) (stepRet l r)).mode = _
      rw [ih]
      by_cases hm : m = VM_MODE.VM_NOTSET
      · rw [if_pos hm]
        subst hm
        cases hc : colonSuffix l with
        | none =>
          have hs : stepMode l VM_MODE.VM_NOTSET = VM_MODE.VM_NOTSET := by
            simp [stepMode, hc]
          rw [hs, if_pos rfl]
          simp [modeSpec, hc]
        | some p =>
          cases hmm : strncmpEq mmuKey l with
          | true =>
            have hs : stepMode l VM_MODE.VM_NOTSET = parse_satp_mode p := by
              simp [stepMode, hc, hmm]
            rw [hs, if_neg (parse_ne_notset p)]
            simp [modeSpec, hc, hmm]
          | false =>
            have hs : stepMode l VM_MODE.VM_NOTSET = VM_MODE.VM_NOTSET := by
              simp [stepMode, hc, hmm]
            rw [hs, if_pos rfl]
            simp [modeSpec, hc, hmm]
      · rw [if_neg hm, stepMode_of_ne hm, if_neg hm]
    · push_neg at hcond
      simp only [scanLoop]
      rw [if_neg (fun hh => hh.elim hcond.1 hcond.2)]
      rw [if_neg hcond.1]

lemma scanLoop_ret :
    ∀ (ls : List (List Char)) (m : VM_MODE) (r : Option (List Char)),
      (scanLoop ls m r).ret = if r = none then retSpec ls else r := by
  intro ls
  induction ls with
  | nil =>
    intro m r
    by_cases hr : r = none
    · simp [scanLoop, retSpec, hr]
    · rw [if_neg hr]; rfl
  | cons l ls ih =>
    intro m r
    by_cases hcond : m = VM_MODE.VM_NOTSET ∨ r = none
    · simp only [scanLoop]
      rw [if_pos hcond]
      show (scanLoop ls (stepMode l m) (stepRet l r)).ret = _
      rw [ih]
      by_cases hr : r = none
      · rw [if_pos hr]
        subst hr
        cases hc : colonSuffix l with
        | none =>
          have hs : stepRet l none = none := by simp [stepRet, hc]
          rw [hs, if_pos rfl]
          simp [retSpec, hc]
        | some p =>
          cases hu : strncmpEq uarchKey l with
          | true =>
            have hs : stepRet l none = some (uarchExtract p) := by
              simp [stepRet, hc, hu]
            rw [hs, if_neg (by simp)]
            simp [retSpec, hc, hu]
          | false =>
            have hs : stepRet l none = none := by simp [stepRet, hc, hu]
            rw [hs, if_pos rfl]
            simp [retSpec, hc, hu]
      · rw [if_neg hr, stepRet_of_ne hr, if_neg hr]
    · push_neg at hcond
      simp only [scanLoop]
      rw [if_neg (fun hh => hh.elim hcond.1 hcond.2)]
      rw [if_neg hcond.2]

lemma scanLoop_reads_both {ls : List (List Char)} {m : VM_MODE}
    {r : Option (List Char)} (hm : m ≠ VM_MODE.VM_NOTSET) (hr : r ≠ none) :
    (scanLoop ls m r).reads ≤ 1 := by
  cases ls with
  | nil => simp [scanLoop]
  | cons l ls =>
    simp only [scanLoop]
    rw [if_neg (fun hh => hh.elim hm hr)]

lemma hasMmu_cons (l : List Char) (ls : List (List Char)) :
    hasMmu (l :: ls) =
      ((strncmpEq mmuKey l && (colonSuffix l).isSome) || hasMmu ls) := rfl

lemma hasUarch_cons (l : List Char) (ls : List (List Char)) :
    hasUarch (l :: ls) =
      ((strncmpEq uarchKey l && (colonSuffix l).isSome) || hasUarch ls) := rfl

lemma scanLoop_reads_le :
    ∀ (pre : List (List Char)) (m : VM_MODE) (r : Option (List Char))
      (post : List (List Char)),
      (m ≠ VM_MODE.VM_NOTSET ∨ hasMmu pre = true) →
      (r ≠ none ∨ hasUarch pre = true) →
      (scanLoop (pre ++ post) m r).reads ≤ pre.length + 1 := by
  intro pre
  induction pre with
  | nil =>
    intro m r post h1 h2
    have hm := h1.resolve_right (by simp [hasMmu])
    have hr := h2.resolve_right (by simp [hasUarch])
    simpa using @scanLoop_reads_both post m r hm hr
  | cons l pre ih =>
    intro m r post h1 h2
    by_cases hcond : m = VM_MODE.VM_NOTSET ∨ r = none
    · simp only [List.cons_append, scanLoop]
      rw [if_pos hcond]
      have hm' : stepMode l m ≠ VM_MODE.VM_NOTSET ∨ hasMmu pre = true := by
        rcases h1 with h | h
        · exact Or.inl (by rw [stepMode_of_ne h]; exact h)
        · rw [hasMmu_cons] at h
          rcases (Bool.or_eq_true _ _).mp h with hl | hp
          · exact Or.inl (stepMode_ne_of_match hl)
          · exact Or.inr hp
      have hr' : stepRet l r ≠ none ∨ hasUarch pre = true := by
        rcases h2 with h | h
        · exact Or.inl (by rw [stepRet_of_ne h]; exact h)
        · rw [hasUarch_cons] at h
          rcases (Bool.or_eq_true _ _).mp h with hl | hp
          · exact Or.inl (stepRet_ne_of_match hl)
          · exact Or.inr hp
      have hrec := ih (stepMode l m) (stepRet l r) post hm' hr'
      show (scanLoop (pre ++ post) (stepMode l m) (stepRet l r)).reads + 1 ≤
        pre.length + 1 + 1
      omega
    · simp only [List.cons_append, scanLoop]
      rw [if_neg hcond]
      show 1 ≤ pre.length + 1 + 1
      omega

/-- C3 counterexample: with all four detection sources unavailable the
translation mode is never set — in particular it is not set to `VM_MBARE`,
because `os_uarch_additional_features` returns before
`satp_mode.enable_feature` when `/proc/cpuinfo` cannot be opened. -/
theorem C3_counterexample :
    (setup_cpu_available_features allSourcesOff).state.satpMode ≠
      some VM_MODE.VM_MBARE := by decide

/-- C3 (amended): with all four detection sources unavailable the detection
pass produces exactly the features string "rv64", leaves every extension
disabled (and the aggregate mask zero), and leaves the translation mode
unset — `satp_mode` is never enabled. -/
theorem C3_all_sources_unavailable (hp : FState) :
    setup_cpu_available_features ⟨false, hp, 0, none⟩ =
      ⟨⟨List.replicate 20 false, none, none, none⟩, "rv64".toList, 0, true⟩ := by
  have h1 : step12 ⟨false, hp, 0, none⟩ =
      (os_aux_features 0 initState, true) := rfl
  simp only [setup_cpu_available_features, h1]
  decide

/-- C4: the code is wrong.  `os_uarch_additional_features` passes the suffix
starting at the colon (": sv48", newline included) to `parse_satp_mode`,
whose exact `strcmp` comparisons can then never match, so an "mmu : sv48"
line yields `VM_MBARE`; `parse_satp_mode` itself maps the bare value "sv48"
to `VM_SV48`, which is the evident intent and what the claim states. -/
theorem C4_mmu_line_yields_mbare :
    (os_uarch_additional_features (some [mmuLine]) initState).2.satpMode =
      some VM_MODE.VM_MBARE ∧
    parse_satp_mode "sv48".toList = VM_MODE.VM_SV48 ∧
    VM_MODE.VM_MBARE ≠ VM_MODE.VM_SV48 := by decide

/-- C5: for every subset of enabled extensions, the canonical features string
is the base tag "rv64" followed, in registry order, by each enabled
extension's display token — bare letter for single-letter extensions,
underscore plus lowercase name for multi-letter ones — and it is a pure
function of the enabled set; in particular this holds for the state produced
by the `AT_HWCAP` bitmask source for every bitmask value. -/
theorem C5_features_string_format (en : List Bool) (auxv : Nat) :
    buildFeaturesString none en = "rv64".toList ++ specTokens featureList en ∧
    (setup_cpu_available_features ⟨false, initState, auxv, none⟩).features =
      "rv64".toList ++
        specTokens featureList (os_aux_features auxv initState).extEnabled := by
  refine ⟨buildFeaturesString_none en, ?_⟩
  have h1 : step12 ⟨false, initState, auxv, none⟩ =
      (os_aux_features auxv initState, true) := rfl
  have h2 : os_uarch_additional_features none (os_aux_features auxv initState)
      = (none, os_aux_features auxv initState) := rfl
  have hv : vendor_features (os_aux_features auxv initState) =
      os_aux_features auxv initState := by
    have hm : (os_aux_features auxv initState).mvendorid = none := rfl
    simp [vendor_features, hm]
  simp only [setup_cpu_available_features, h1, h2, hv]
  exact buildFeaturesString_none _

/-- C6: the vendor overlay is monotonic — for every registry state produced
by the earlier detection steps, `vendor_features` never changes an extension
from enabled to disabled. -/
theorem C6_vendor_overlay_monotonic (s : FState) (k : Nat)
    (hlen : s.extEnabled.length = featureList.length)
    (h : s.extEnabled.getD k false = true) :
    (vendor_features s).extEnabled.getD k false = true := by
  cases hv : s.mvendorid with
  | none =>
    have hs : vendor_features s = s := by simp [vendor_features, hv]
    rw [hs]; exact h
  | some v =>
    by_cases h6 : v = 0x6cf
    · have hs : vendor_features s = rivos_features s := by
        simp [vendor_features, hv, h6]
      rw [hs]
      simp only [rivos_features]
      exact (foldl_enable_mono k rivosExtNames s hlen h).2
    · have hs : vendor_features s = s := by simp [vendor_features, hv, h6]
      rw [hs]; exact h

theorem C6_witness :
    (vendor_features c6State).extEnabled.getD 0 false = true :=
  C6_vendor_overlay_monotonic c6State 0 (by decide) (by decide)

/-- C7 counterexample to the claim as stated: after the second line both
target fields have been found, yet the loop's `fgets`, evaluated before the
found-flags on the left of `&&`, consumes a third line. -/
theorem C7_counterexample :
    (scanLoop [mmuLine, uarchLineA] VM_MODE.VM_NOTSET none).mode ≠
      VM_MODE.VM_NOTSET ∧
    (scanLoop [mmuLine, uarchLineA] VM_MODE.VM_NOTSET none).ret ≠ none ∧
    (scanLoop [mmuLine, uarchLineA, uarchLineB] VM_MODE.VM_NOTSET none).reads
      = 3 := by decide

/-- C7 (amended): the scan yields the parse of the first "mmu" colon line and
the extraction of the first "uarch" colon line — hence the same results in
either field order, tolerating absent fields — and after a prefix in which
both fields have been found it reads at most one further line, which it does
not process. -/
theorem C7_scan_stop_and_order (ls pre post : List (List Char)) :
    (scanLoop ls VM_MODE.VM_NOTSET none).mode = modeSpec ls ∧
    (scanLoop ls VM_MODE.VM_NOTSET none).ret = retSpec ls ∧
    (ls = pre ++ post → hasMmu pre = true → hasUarch pre = true →
      (scanLoop ls VM_MODE.VM_NOTSET none).reads ≤ pre.length + 1) := by
  refine ⟨?_, ?_, ?_⟩
  · rw [scanLoop_mode]; exact if_pos rfl
  · rw [scanLoop_ret]; exact if_pos rfl
  · intro h1 h2 h3
    subst h1
    exact scanLoop_reads_le pre VM_MODE.VM_NOTSET none post (Or.inr h2)
      (Or.inr h3)

theorem C7_witness :
    (scanLoop (w7pre ++ w7post) VM_MODE.VM_NOTSET none).reads ≤
      w7pre.length + 1 :=
  (C7_scan_stop_and_order (w7pre ++ w7post) w7pre w7post).2.2 rfl (by decide)
    (by decide)

/-- C8: the `AT_HWCAP` bitmask source is consulted if and only if hwprobe
reports failure, and when it is consulted, a registry extension ends up
enabled exactly when its fixed feature bit is set in the bitmask (extensions
with no HWCAP mapping have feature bit 0 and remain disabled). -/
theorem C8_aux_bitmask_source (inp : DetectInput) (k : Nat)
    (hk : k < featureList.length) :
    ((step12 inp).2 = true ↔ inp.hwprobeOk = false) ∧
    (inp.hwprobeOk = false →
      (step12 inp).1.extEnabled.getD k false =
        decide (((featureList.getD k dummyExt).featureBit &&& inp.auxv) ≠ 0))
    := by
  cases hp : inp.hwprobeOk with
  | true =>
    have hs : step12 inp = (inp.hwprobeResult, false) := by simp [step12, hp]
    constructor
    · rw [hs]; simp
    · intro hc; exact Bool.noConfusion hc
  | false =>
    have hs : step12 inp = (os_aux_features inp.auxv initState, true) := by
      simp [step12, hp]
    constructor
    · rw [hs]; simp
    · intro _
      rw [hs]
      show (os_aux_features inp.auxv initState).extEnabled.getD k false = _
      have hz := zipMap_getD
        (fun p => p.2 || decide ((p.1.featureBit &&& inp.auxv) ≠ 0))
        featureList initState.extEnabled k hk (by simpa [initState] using hk)
      simp only [os_aux_features]
      rw [hz]
      simp [initState, getD_replicate_false]

theorem C8_witness :
    (step12 c8Input).1.extEnabled.getD 0 false = true := by
  have h := (C8_aux_bitmask_source c8Input 0 (by decide)).2 rfl
  rw [h]
  decide

/-- C9: the code is wrong.  On a "uarch : sifive-u74" line the recovered
string keeps its trailing newline, because the NUL index is computed with
`strcspn(p, "\n")` from `p` but stored into `ret = strdup(p + 2)`; that index
also lies one byte past the allocation of `ret` (an out-of-bounds write).
The claim — and the evident intent, stripping the newline of `ret` itself —
is the exact string "sifive-u74". -/
theorem C9_uarch_keeps_newline :
    (os_uarch_additional_features (some [uarchLineA]) initState).1 =
      some ("sifive-u74\n".toList) ∧
    uarchWriteOOB (": sifive-u74\n".toList) = true ∧
    ("sifive-u74\n".toList ≠ "sifive-u74".toList) := by decide

end RiscvJdk
